import Mathlib

/-!
Verification of the gache in-process cache library (src/gache.go) against its
natural-language specification.

Shallow embedding conventions:
- Go `time.Time` / `UnixNano()` timestamps and `time.Duration` are both `Int`
  (nanoseconds); `time.Now()` becomes an explicit `now : Int` argument to the
  operations that read the clock (`Get`, `Set`).
- Go `interface` payloads are `Option α` with `none` modelling the Go nil; a
  fill function `func(string) (interface, bool)` becomes
  `String → Option α × Bool`, and a nil `FillFunc` field is `Option.none` one
  level up.
- Go maps become association lists with unique keys; `mapGet`, `mapSet` and
  `mapDel` mirror map indexing, assignment and `delete`.
- Each Go `sync.Mutex` is modelled by an identifier `mx : Nat` recording which
  lock an operation acquires; the Go `cache` struct has no mutex field of its
  own, so, exactly as in the source, the registry methods reach `c.mx` through
  the embedded `group` pointer.
- Methods that mutate the receiver return the updated value; `group.Get`
  additionally reports whether the fill function was invoked during the call
  (`fillCalled`), mirroring the call counter used by the testable properties.
-/

namespace Gache

/-- Lookup in a Go map modelled as an association list (src/gache.go map index
expression `g.values[key]`, `c.groups[key]`). -/
def mapGet {β : Type} (l : List (String × β)) (k : String) : Option β :=
  match l with
  | [] => none
  | p :: rest => if p.1 = k then some p.2 else mapGet rest k

/-- Go `delete(m, k)` on an association list. -/
def mapDel {β : Type} (l : List (String × β)) (k : String) : List (String × β) :=
  match l with
  | [] => []
  | p :: rest => if p.1 = k then mapDel rest k else p :: mapDel rest k

/-- Go map assignment `m[k] = v`: overwrite the binding for `k`. -/
def mapSet {β : Type} (l : List (String × β)) (k : String) (v : β) : List (String × β) :=
  mapDel l k ++ [(k, v)]

/-- Embeds type `FillFunc func(key string) (interface, bool)`
(src/gache.go line 45). -/
abbrev FillFunc (α : Type) : Type := String → Option α × Bool

/-- Embeds `type value struct` (src/gache.go lines 130-133): `data` is the
stored payload, `expiration` the absolute UnixNano deadline, `0` meaning no
expiration. -/
structure value (α : Type) where
  data : Option α
  expiration : Int
deriving DecidableEq

/-- Embeds `type group struct` (src/gache.go lines 135-140). `mx` is the
identity of the mutex owned by this group. -/
structure group (α : Type) where
  mx : Nat
  values : List (String × value α)
  fillFunc : Option (FillFunc α)
  expiration : Int

/-- Embeds `type cache struct` (src/gache.go lines 47-50): an embedded
`group` pointer (`gr`) and the named-group registry. The struct has no mutex
field of its own. -/
structure cache (α : Type) where
  gr : group α
  groups : List (String × group α)

/-- Result of `group.Get`: the returned pair `(res, found)`, the updated group
state, and whether the fill function was invoked during the call. -/
structure GetOut (α : Type) where
  res : Option α
  found : Bool
  g : group α
  fillCalled : Bool

/-- Embeds `func (g *group) Get` (src/gache.go lines 142-177). The local
variable `v` is looked up first and, when absent, is the Go zero value
`value{nil, 0}`; on the fill path the source overwrites only `v.data` and then
resets `v.expiration` only when the current policy is nonzero, so `v0` is
carried into the stored value exactly as in the source. -/
def group.Get {α : Type} (g : group α) (key : String) (now : Int) : GetOut α :=
  let looked := mapGet g.values key
  let v0 : value α := looked.getD { data := none, expiration := 0 }
  if looked.isSome && (v0.expiration == 0 || decide (v0.expiration > now)) then
    { res := v0.data, found := true, g := g, fillCalled := false }
  else
    match g.fillFunc with
    | none =>
      { res := none, found := false
        g := { g with values := mapDel g.values key }, fillCalled := false }
    | some f =>
      let r := f key
      let v1 : value α := { v0 with data := r.1 }
      if r.2 then
        let v2 : value α :=
          if g.expiration ≠ 0 then { v1 with expiration := now + g.expiration } else v1
        { res := v2.data, found := true
          g := { g with values := mapSet g.values key v2 }, fillCalled := true }
      else
        { res := none, found := false
          g := { g with values := mapDel g.values key }, fillCalled := true }

/-- Embeds `func (g *group) Set` (src/gache.go lines 179-193). -/
def group.Set {α : Type} (g : group α) (key : String) (val : Option α) (now : Int) : group α :=
  let e : Int := if g.expiration ≠ 0 then now + g.expiration else 0
  { g with values := mapSet g.values key { data := val, expiration := e } }

/-- Embeds `func (g *group) Del` (src/gache.go lines 195-199). -/
def group.Del {α : Type} (g : group α) (key : String) : group α :=
  { g with values := mapDel g.values key }

/-- Embeds `func (g *group) SetExpiration` (src/gache.go lines 201-209). -/
def group.SetExpiration {α : Type} (g : group α) (e : Int) : group α :=
  { g with expiration := if e ≤ 0 then 0 else e }

/-- Embeds `func (g *group) SetFillFunc` (src/gache.go lines 211-215). -/
def group.SetFillFunc {α : Type} (g : group α) (f : Option (FillFunc α)) : group α :=
  { g with fillFunc := f }

/-- Errors returned by the cache registry methods (the two `fmt.Errorf` sites,
src/gache.go lines 82 and 122). -/
inductive GacheError where
  | alreadyExists (key : String)
  | notFound (key : String)
deriving DecidableEq

/-- Embeds `func NewCache` (src/gache.go lines 54-67). The fresh embedded
group owns the mutex with identity 0. -/
def NewCache {α : Type} (expiration : Int) (fillFunc : Option (FillFunc α)) : cache α :=
  let e : Int := if expiration < 0 then 0 else expiration
  { gr := { mx := 0, values := [], fillFunc := fillFunc, expiration := e }
    groups := [] }

/-- A mutex identity unused by the cache: larger than the mutex of the
embedded group and of every registered group (models the fresh `sync.Mutex`
of a newly allocated `group` struct). -/
def freshMx {α : Type} (c : cache α) : Nat :=
  ((c.groups.map (fun p => p.2.mx)).foldr max c.gr.mx) + 1

/-- Embeds `func (c *cache) Group` (src/gache.go lines 69-75): a nil group
pointer together with `ok=false` when the name is unregistered. -/
def cache.Group {α : Type} (c : cache α) (key : String) : Option (group α) × Bool :=
  (mapGet c.groups key, (mapGet c.groups key).isSome)

/-- Embeds `func (c *cache) NewGroup` (src/gache.go lines 77-96); returns the
updated cache and the Go error value (`none` = nil error). -/
def cache.NewGroup {α : Type} (c : cache α) (key : String) (expiration : Int)
    (fillFunc : Option (FillFunc α)) : cache α × Option GacheError :=
  if (mapGet c.groups key).isSome then
    (c, some (.alreadyExists key))
  else
    let e : Int := if expiration < 0 then 0 else expiration
    let g : group α := { mx := freshMx c, values := [], fillFunc := fillFunc, expiration := e }
    ({ c with groups := mapSet c.groups key g }, none)

/-- Embeds `func (c *cache) DelGroup` (src/gache.go lines 98-102). -/
def cache.DelGroup {α : Type} (c : cache α) (key : String) : cache α :=
  { c with groups := mapDel c.groups key }

/-- Result of `cache.GetGroupVal`: the returned pair, the updated cache, and
whether a fill function was invoked. -/
structure GroupValOut (α : Type) where
  res : Option α
  found : Bool
  c : cache α
  fillCalled : Bool

/-- Embeds `func (c *cache) GetGroupVal` (src/gache.go lines 104-114): the
registry lookup happens under `c.mx`, then the call delegates to the found
group, whose mutation (through the Go pointer) is written back here. -/
def cache.GetGroupVal {α : Type} (c : cache α) (gkey vkey : String) (now : Int) :
    GroupValOut α :=
  match mapGet c.groups gkey with
  | none => { res := none, found := false, c := c, fillCalled := false }
  | some g =>
    let out := g.Get vkey now
    { res := out.res, found := out.found
      c := { c with groups := mapSet c.groups gkey out.g }
      fillCalled := out.fillCalled }

/-- Embeds `func (c *cache) SetGroupVal` (src/gache.go lines 116-128). -/
def cache.SetGroupVal {α : Type} (c : cache α) (gkey vkey : String) (val : Option α)
    (now : Int) : cache α × Option GacheError :=
  match mapGet c.groups gkey with
  | none => (c, some (.notFound gkey))
  | some g =>
    ({ c with groups := mapSet c.groups gkey (g.Set vkey val now) }, none)

/-- The mutex acquired by the registry methods of `cache` (`Group`, `NewGroup`,
`DelGroup`, and the registry lookups of `GetGroupVal` and `SetGroupVal`): each
of them calls `c.mx.Lock()` (src/gache.go lines 70, 78, 99, 105, 117), and
because the `cache` struct declares no mutex field, the selector `c.mx`
resolves through the embedded `*group` to the mutex of the embedded default
group. -/
def cache.registryMutex {α : Type} (c : cache α) : Nat :=
  c.gr.mx

/-- The mutex a group acquires around every access to its value map
(src/gache.go lines 143, 153, 162, 172, 180, 196, 206, 212): its own `g.mx`. -/
def group.valuesMutex {α : Type} (g : group α) : Nat :=
  g.mx

/-- The condition under which `group.Get` takes its miss path: the key is
absent, or the stored entry carries a nonzero deadline that is not strictly
after `now` (the negation of the hit test on src/gache.go line 148). -/
def staleAt {α : Type} (g : group α) (key : String) (now : Int) : Prop :=
  mapGet g.values key = none ∨
    ∃ v, mapGet g.values key = some v ∧ v.expiration ≠ 0 ∧ v.expiration ≤ now

/-- The fill-on-miss scenario from the testable properties of the spec: on an
empty group with TTL 100 and a fill function answering key "a" with
`("X", true)`, the first `Get "a"` (at time 0) returns `("X", true)` and
invokes the fill function, a second `Get "a"` within the TTL (at time 50)
returns `("X", true)` without invoking it, so the fill counter totals 1. -/
def fillOnMissScenario : Prop :=
  let fA : FillFunc String := fun k => if k = "a" then (some "X", true) else (none, false)
  let g0 : group String := { mx := 0, values := [], fillFunc := some fA, expiration := 100 }
  let out1 := g0.Get "a" 0
  let out2 := out1.g.Get "a" 50
  out1.res = some "X" ∧ out1.found = true ∧ out2.res = some "X" ∧ out2.found = true ∧
    out1.fillCalled.toNat + out2.fillCalled.toNat = 1

/-- The expiry scenario from the testable properties of the spec: after
`Set "k" "v"` at time 0 on a group with TTL 100 and no fill function, a `Get`
within the TTL succeeds, a `Get` after more than the TTL has elapsed (time
150) returns `(nil, false)` and removes the entry, and a further `Get` (time
160) still reports not found. -/
def expiredNoFillScenario : Prop :=
  let g0 : group String := { mx := 0, values := [], fillFunc := none, expiration := 100 }
  let g1 := g0.Set "k" (some "v") 0
  let out := g1.Get "k" 150
  let out2 := out.g.Get "k" 160
  (g1.Get "k" 50).res = some "v" ∧ (g1.Get "k" 50).found = true ∧
    out.res = none ∧ out.found = false ∧ mapGet out.g.values "k" = none ∧
    out2.res = none ∧ out2.found = false

/-- The fill-returning-not-found scenario from the testable properties of the
spec: a fill function answering `(_, false)` for key "b" makes `Get "b"` on an
empty group return `(nil, false)` and leaves no entry in the value map. -/
def fillNotFoundScenario : Prop :=
  let g0 : group String :=
    { mx := 0, values := [], fillFunc := some (fun _ => (some "ignored", false)),
      expiration := 100 }
  let out := g0.Get "b" 7
  out.res = none ∧ out.found = false ∧ out.g.values = []

/-! Basic lemmas about the association-list model of Go maps. -/

theorem mapGet_append {β : Type} (l₁ l₂ : List (String × β)) (k : String) :
    mapGet (l₁ ++ l₂) k = (mapGet l₁ k).elim (mapGet l₂ k) some := by
  induction l₁ with
  | nil => simp [mapGet]
  | cons p rest ih =>
    by_cases h : p.1 = k <;> simp [mapGet, h, ih]

theorem mapGet_mapDel {β : Type} (l : List (String × β)) (k k' : String) :
    mapGet (mapDel l k) k' = if k' = k then none else mapGet l k' := by
  induction l with
  | nil => simp [mapDel, mapGet]
  | cons p rest ih =>
    by_cases h : p.1 = k
    · rw [show mapDel (p :: rest) k = mapDel rest k from by simp [mapDel, h], ih]
      by_cases hk : k' = k
      · simp [hk]
      · simp [hk, mapGet, show ¬ p.1 = k' from h ▸ fun hc => hk hc.symm]
    · rw [show mapDel (p :: rest) k = p :: mapDel rest k from by simp [mapDel, h]]
      by_cases hp : p.1 = k'
      · have hk : ¬ k' = k := fun hc => h (hp.trans hc)
        simp [mapGet, hp, hk]
      · simp [mapGet, hp, ih]

theorem mapGet_mapSet {β : Type} (l : List (String × β)) (k k' : String) (v : β) :
    mapGet (mapSet l k v) k' = if k' = k then some v else mapGet l k' := by
  rw [mapSet, mapGet_append, mapGet_mapDel]
  by_cases hk : k' = k
  · simp [hk, mapGet]
  · cases hget : mapGet l k' <;>
      simp [hk, mapGet, show ¬ k = k' from fun hc => hk hc.symm, hget]

theorem mapDel_of_mapGet_none {β : Type} (l : List (String × β)) (k : String)
    (h : mapGet l k = none) : mapDel l k = l := by
  induction l with
  | nil => rfl
  | cons p rest ih =>
    by_cases hp : p.1 = k
    · simp [mapGet, hp] at h
    · simp only [mapGet, hp, if_false, if_neg hp] at h ⊢
      rw [mapDel, if_neg hp, ih h]

theorem le_foldr_max (b : Nat) (l : List Nat) : b ≤ l.foldr max b := by
  induction l with
  | nil => exact Nat.le_refl b
  | cons x xs ih => exact Nat.le_trans ih (Nat.le_max_right x _)

theorem freshMx_ne_gr_mx {α : Type} (c : cache α) : freshMx c ≠ c.gr.mx := by
  have h := le_foldr_max c.gr.mx (c.groups.map (fun p => p.2.mx))
  have : c.gr.mx < freshMx c := Nat.lt_succ_of_le h
  exact fun hc => absurd (hc ▸ this) (lt_irrefl _)

/-! Behavior of `group.Get` on the hit path and the two no-store miss paths. -/

theorem get_hit {α : Type} {g : group α} {key : String} {now : Int} {v : value α}
    (hv : mapGet g.values key = some v)
    (hfresh : v.expiration = 0 ∨ now < v.expiration) :
    g.Get key now = ⟨v.data, true, g, false⟩ := by
  rcases hfresh with h | h
  · simp [group.Get, hv, h]
  · simp [group.Get, hv, h]

theorem get_miss_nofill {α : Type} {g : group α} {key : String} {now : Int}
    (hnf : g.fillFunc = none) (hmiss : staleAt g key now) :
    g.Get key now = ⟨none, false, { g with values := mapDel g.values key }, false⟩ := by
  rcases hmiss with h | ⟨v, hv, hne, hle⟩
  · simp [group.Get, h, hnf]
  · simp [group.Get, hv, hnf, hne, not_lt.mpr hle]

theorem get_miss_fill_notfound {α : Type} {g : group α} {key : String} {now : Int}
    {f : FillFunc α}
    (hf : g.fillFunc = some f) (hmiss : staleAt g key now)
    (hnotfound : (f key).2 = false) :
    g.Get key now = ⟨none, false, { g with values := mapDel g.values key }, true⟩ := by
  rcases hmiss with h | ⟨v, hv, hne, hle⟩
  · simp [group.Get, h, hf, hnotfound]
  · simp [group.Get, hv, hf, hne, not_lt.mpr hle, hnotfound]

/-! Claim theorems. -/

/-- Claim C1: the spec invariant says every stored Value has `expiresAt` equal
to the never sentinel when written under policy 0, or an instant strictly in
the future at write time. The code violates it: when `Get` fills over a
previously stored expired entry while the current policy is 0, the source
reuses the local `v` and never resets `v.expiration`, so the freshly written
value keeps the stale, already-past deadline 5 even though it was written
under policy 0 at time 10. -/
theorem c1_fill_keeps_stale_expiration :
    (group.Get
        { mx := 0, values := [("k", { data := some "old", expiration := 5 })],
          fillFunc := some (fun _ => (some "new", true)), expiration := 0 }
        "k" 10).found = true ∧
    mapGet (group.Get
        { mx := 0, values := [("k", { data := some "old", expiration := 5 })],
          fillFunc := some (fun _ => (some "new", true)), expiration := (0 : Int) }
        "k" 10).g.values "k" =
      some { data := some "new", expiration := 5 } ∧
    ¬ ((5 : Int) = 0 ∨ (10 : Int) < 5) := by
  decide

/-- Claim C2 counterexample: the claim says the registry operations of a cache
are guarded by a lock of the caches own, distinct from the lock protecting the
embedded default groups value map. At the concrete cache `NewCache 0 none` the
two mutexes are the same one, refuting distinctness: the Go `cache` struct has
no mutex field, and `c.mx` in every registry method resolves through the
embedded `*group`. -/
theorem c2_counterexample :
    (NewCache 0 none : cache String).registryMutex =
      (NewCache 0 none : cache String).gr.valuesMutex := by
  rfl

/-- Claim C2 (amended): the registry operations of a cache synchronize on the
very mutex of the embedded default group that also guards the default groups
value map — the cache owns no separate lock — while a named group created by
`NewGroup` does own a mutex distinct from the registry mutex. -/
theorem c2_registry_shares_default_group_mutex {α : Type} (c : cache α)
    (key : String) (e : Int) (f : Option (FillFunc α)) (c' : cache α) (g : group α)
    (hnew : c.NewGroup key e f = (c', none))
    (hg : mapGet c'.groups key = some g) :
    c.registryMutex = c.gr.valuesMutex ∧ g.valuesMutex ≠ c'.registryMutex := by
  refine ⟨rfl, ?_⟩
  unfold cache.NewGroup at hnew
  by_cases habs : (mapGet c.groups key).isSome
  · rw [if_pos habs] at hnew
    exact absurd (congrArg Prod.snd hnew) (by simp)
  · rw [if_neg habs] at hnew
    have hfst : cache.mk c.gr
        (mapSet c.groups key ⟨freshMx c, [], f, if e < 0 then 0 else e⟩) = c' :=
      congrArg Prod.fst hnew
    have hgroups : c'.groups =
        mapSet c.groups key ⟨freshMx c, [], f, if e < 0 then 0 else e⟩ := by
      rw [← hfst]
    have hgr : c'.gr = c.gr := by rw [← hfst]
    rw [hgroups, mapGet_mapSet, if_pos rfl] at hg
    have hgeq : g = ⟨freshMx c, [], f, if e < 0 then 0 else e⟩ :=
      (Option.some_injective _ hg).symm
    rw [hgeq]
    show freshMx c ≠ c'.registryMutex
    unfold cache.registryMutex
    rw [hgr]
    exact freshMx_ne_gr_mx c

/-- Claim C3: for every key whose stored value is present and not expired
(deadline 0 or strictly after the current time), `Get` returns the stored
value with found=true, leaves the group unchanged and does not invoke the
fill function; moreover the concrete fill-on-miss scenario holds: the fill
function runs exactly once across a miss followed by a hit within the TTL. -/
theorem c3_hit_returns_without_fill {α : Type} (g : group α) (key : String) (now : Int)
    (v : value α)
    (hv : mapGet g.values key = some v)
    (hfresh : v.expiration = 0 ∨ now < v.expiration) :
    g.Get key now = ⟨v.data, true, g, false⟩ ∧ fillOnMissScenario :=
  ⟨get_hit hv hfresh, by unfold fillOnMissScenario; decide⟩

/-- Witness for claim C3 at a concrete one-entry group with no expiration. -/
theorem c3_hit_returns_without_fill_witness :
    group.Get (⟨0, [("k", ⟨some "y", 0⟩)], none, 0⟩ : group String) "k" 5 =
      ⟨some "y", true, ⟨0, [("k", ⟨some "y", 0⟩)], none, 0⟩, false⟩ ∧
    fillOnMissScenario :=
  c3_hit_returns_without_fill (⟨0, [("k", ⟨some "y", 0⟩)], none, 0⟩ : group String)
    "k" 5 ⟨some "y", 0⟩ rfl (Or.inl rfl)

/-- Claim C4: for every key that is absent or expired, when no fill function
is configured, `Get` deletes any stale entry for the key and returns
`(nil, false)`; afterwards no entry for the key remains. The concrete expiry
scenario holds: after `Set` with TTL 100 and more than 100 elapsed, `Get`
returns `(nil, false)`, the entry is removed, and a further `Get` still
reports not found. -/
theorem c4_miss_without_fill_removes_entry {α : Type} (g : group α) (key : String)
    (now : Int)
    (hnf : g.fillFunc = none) (hmiss : staleAt g key now) :
    g.Get key now = ⟨none, false, { g with values := mapDel g.values key }, false⟩ ∧
    mapGet (g.Get key now).g.values key = none ∧ expiredNoFillScenario := by
  have h := get_miss_nofill hnf hmiss
  refine ⟨h, ?_, by unfold expiredNoFillScenario; decide⟩
  rw [h, mapGet_mapDel, if_pos rfl]

/-- Witness for claim C4 at a concrete group holding an entry expired at time
10, read at time 20, with no fill function. -/
theorem c4_miss_without_fill_removes_entry_witness :
    group.Get (⟨0, [("k", ⟨some "y", 10⟩)], none, 100⟩ : group String) "k" 20 =
      ⟨none, false, ⟨0, [], none, 100⟩, false⟩ ∧
    mapGet (group.Get (⟨0, [("k", ⟨some "y", 10⟩)], none, 100⟩ : group String)
      "k" 20).g.values "k" = none ∧
    expiredNoFillScenario :=
  c4_miss_without_fill_removes_entry _ "k" 20 rfl
    (Or.inr ⟨⟨some "y", 10⟩, rfl, by decide, by decide⟩)

/-- Claim C5: for every key that is absent or expired, when the configured
fill function reports not-found for it, `Get` returns `(nil, false)` and
leaves no entry in the value map for that key; the concrete scenario holds:
a fill function answering `(_, false)` for key "b" makes `Get "b"` on an empty
group return `(nil, false)` with an empty map afterwards. The miss is an
ordinary `(nil, false)` result of the total function `group.Get`, not an
error value. -/
theorem c5_fill_notfound_leaves_no_entry {α : Type} (g : group α) (key : String)
    (now : Int) (f : FillFunc α)
    (hf : g.fillFunc = some f) (hmiss : staleAt g key now)
    (hnotfound : (f key).2 = false) :
    g.Get key now = ⟨none, false, { g with values := mapDel g.values key }, true⟩ ∧
    mapGet (g.Get key now).g.values key = none ∧ fillNotFoundScenario := by
  have h := get_miss_fill_notfound hf hmiss hnotfound
  refine ⟨h, ?_, by unfold fillNotFoundScenario; decide⟩
  rw [h, mapGet_mapDel, if_pos rfl]

/-- Witness for claim C5 at a concrete empty group whose fill function always
reports not-found. -/
theorem c5_fill_notfound_leaves_no_entry_witness :
    group.Get (⟨0, [], some (fun _ => (some "z", false)), 0⟩ : group String) "b" 7 =
      ⟨none, false, ⟨0, [], some (fun _ => (some "z", false)), 0⟩, true⟩ ∧
    mapGet (group.Get (⟨0, [], some (fun _ => (some "z", false)), 0⟩ : group String)
      "b" 7).g.values "b" = none ∧
    fillNotFoundScenario :=
  c5_fill_notfound_leaves_no_entry _ "b" 7 (fun _ => (some "z", false)) rfl
    (Or.inl rfl) rfl

/-- Claim C6: after `Set key val` on a group whose expiration policy is 0, a
`Get key` at any later time returns `(val, true)` from the cache-hit path
(no fill invocation, state unchanged): the entry never expires. -/
theorem c6_set_with_zero_policy_never_expires {α : Type} (g : group α) (key : String)
    (val : Option α) (now nowLater : Int)
    (h0 : g.expiration = 0) :
    (g.Set key val now).Get key nowLater = ⟨val, true, g.Set key val now, false⟩ := by
  have hv : mapGet (g.Set key val now).values key = some { data := val, expiration := 0 } := by
    simp [group.Set, h0, mapGet_mapSet]
  exact get_hit hv (Or.inl rfl)

/-- Witness for claim C6 at a concrete empty group with policy 0, writing at
time 3 and reading at the much later time 1000000. -/
theorem c6_set_with_zero_policy_never_expires_witness :
    ((⟨0, [], none, 0⟩ : group String).Set "k" (some "v") 3).Get "k" 1000000 =
      ⟨some "v", true, (⟨0, [], none, 0⟩ : group String).Set "k" (some "v") 3, false⟩ :=
  c6_set_with_zero_policy_never_expires _ "k" (some "v") 3 1000000 rfl

/-- Claim C7: `NewGroup` on an unregistered name succeeds, registering a
fresh group with an empty value map and the negative expiration normalized to
0, leaving every other name unchanged; calling `NewGroup` again with the same
name then fails with the already-exists error; and on any cache where the
name is registered, `NewGroup` fails with the already-exists error and
returns the registry unchanged. -/
theorem c7_newgroup_registers_or_rejects {α : Type} (c : cache α) (key : String)
    (e e' : Int) (f f' : Option (FillFunc α))
    (habs : mapGet c.groups key = none) :
    (c.NewGroup key e f).2 = none ∧
    mapGet (c.NewGroup key e f).1.groups key =
      some ⟨freshMx c, [], f, if e < 0 then 0 else e⟩ ∧
    (∀ k, k ≠ key → mapGet (c.NewGroup key e f).1.groups k = mapGet c.groups k) ∧
    (c.NewGroup key e f).1.NewGroup key e' f' =
      ((c.NewGroup key e f).1, some (.alreadyExists key)) ∧
    (∀ c' : cache α, (mapGet c'.groups key).isSome →
      c'.NewGroup key e f = (c', some (.alreadyExists key))) := by
  have hns : (mapGet c.groups key).isSome = false := by rw [habs]; rfl
  refine ⟨?_, ?_, ?_, ?_, ?_⟩
  · simp [cache.NewGroup, hns]
  · simp [cache.NewGroup, hns, mapGet_mapSet]
  · intro k hk
    simp [cache.NewGroup, hns, mapGet_mapSet, hk]
  · simp [cache.NewGroup, hns, mapGet_mapSet]
  · intro c' hreg
    simp [cache.NewGroup, hreg]

/-- Witness for claim C7: registering "g1" with expiration -2 on the fresh
cache `NewCache 3 none`, then attempting to register "g1" again. -/
theorem c7_newgroup_registers_or_rejects_witness :
    ((NewCache 3 none : cache String).NewGroup "g1" (-2) none).2 = none ∧
    mapGet ((NewCache 3 none : cache String).NewGroup "g1" (-2) none).1.groups "g1" =
      some ⟨1, [], none, 0⟩ ∧
    (∀ k, k ≠ "g1" →
      mapGet ((NewCache 3 none : cache String).NewGroup "g1" (-2) none).1.groups k =
        mapGet (NewCache 3 none : cache String).groups k) ∧
    ((NewCache 3 none : cache String).NewGroup "g1" (-2) none).1.NewGroup "g1" 5 none =
      (((NewCache 3 none : cache String).NewGroup "g1" (-2) none).1,
        some (.alreadyExists "g1")) ∧
    (∀ c' : cache String, (mapGet c'.groups "g1").isSome →
      c'.NewGroup "g1" (-2) none = (c', some (.alreadyExists "g1"))) :=
  c7_newgroup_registers_or_rejects (NewCache 3 none) "g1" (-2) 5 none none rfl

/-- Claim C8: on a cache where `gname` is registered with group `g`,
`SetGroupVal` returns no error and delegates to the `Set` of `g`, and
`GetGroupVal` delegates to the `Get` of `g`; on any cache where `gname` is
unregistered, `SetGroupVal` returns the not-found error changing nothing and
`GetGroupVal` returns `(nil, false)` without error and without invoking any
fill function. -/
theorem c8_groupval_delegates {α : Type} (c : cache α) (gname vkey : String)
    (val : Option α) (now : Int) (g : group α)
    (hg : mapGet c.groups gname = some g) :
    c.SetGroupVal gname vkey val now =
      (⟨c.gr, mapSet c.groups gname (g.Set vkey val now)⟩, none) ∧
    c.GetGroupVal gname vkey now =
      ⟨(g.Get vkey now).res, (g.Get vkey now).found,
        ⟨c.gr, mapSet c.groups gname (g.Get vkey now).g⟩,
        (g.Get vkey now).fillCalled⟩ ∧
    (∀ c₀ : cache α, mapGet c₀.groups gname = none →
      c₀.SetGroupVal gname vkey val now = (c₀, some (.notFound gname)) ∧
      c₀.GetGroupVal gname vkey now = ⟨none, false, c₀, false⟩) := by
  refine ⟨?_, ?_, ?_⟩
  · simp [cache.SetGroupVal, hg]
  · simp [cache.GetGroupVal, hg]
  · intro c₀ h
    exact ⟨by simp [cache.SetGroupVal, h], by simp [cache.GetGroupVal, h]⟩

/-- Witness for claim C8 on a cache holding one registered group "g1" with
policy 0 and no fill function, setting and getting key "k" at time 2. -/
theorem c8_groupval_delegates_witness :
    (⟨⟨0, [], none, 0⟩, [("g1", ⟨1, [], none, 0⟩)]⟩ : cache String).SetGroupVal
        "g1" "k" (some "v") 2 =
      (⟨⟨0, [], none, 0⟩,
        mapSet [("g1", ⟨1, [], none, 0⟩)] "g1"
          ((⟨1, [], none, 0⟩ : group String).Set "k" (some "v") 2)⟩, none) ∧
    (⟨⟨0, [], none, 0⟩, [("g1", ⟨1, [], none, 0⟩)]⟩ : cache String).GetGroupVal
        "g1" "k" 2 =
      ⟨((⟨1, [], none, 0⟩ : group String).Get "k" 2).res,
        ((⟨1, [], none, 0⟩ : group String).Get "k" 2).found,
        ⟨⟨0, [], none, 0⟩,
          mapSet [("g1", ⟨1, [], none, 0⟩)] "g1"
            ((⟨1, [], none, 0⟩ : group String).Get "k" 2).g⟩,
        ((⟨1, [], none, 0⟩ : group String).Get "k" 2).fillCalled⟩ ∧
    (∀ c₀ : cache String, mapGet c₀.groups "g1" = none →
      c₀.SetGroupVal "g1" "k" (some "v") 2 = (c₀, some (.notFound "g1")) ∧
      c₀.GetGroupVal "g1" "k" 2 = ⟨none, false, c₀, false⟩) :=
  c8_groupval_delegates (⟨⟨0, [], none, 0⟩, [("g1", ⟨1, [], none, 0⟩)]⟩ : cache String)
    "g1" "k" (some "v") 2 ⟨1, [], none, 0⟩ rfl

/-- Claim C9: `SetExpiration` replaces the policy, normalizing any duration
at most 0 to 0, and leaves the value map — hence the data and deadline of
every stored entry — and the fill function unchanged. -/
theorem c9_setexpiration_only_policy {α : Type} (g : group α) (e : Int) :
    (g.SetExpiration e).expiration = (if e ≤ 0 then 0 else e) ∧
    (g.SetExpiration e).values = g.values ∧
    (g.SetExpiration e).fillFunc = g.fillFunc ∧
    ∀ k, mapGet (g.SetExpiration e).values k = mapGet g.values k :=
  ⟨rfl, rfl, rfl, fun _ => rfl⟩

/-- Claim C10: `Group n` returns the registered group with found=true when
`n` is registered; for any cache it returns `(nil, false)` right after
`DelGroup n`; and on a cache where `n` is absent, `Group n` returns
`(nil, false)` and `DelGroup n` is a no-op leaving the cache unchanged. -/
theorem c10_group_lookup_and_delgroup {α : Type} (c : cache α) (n : String)
    (g : group α)
    (hg : mapGet c.groups n = some g) :
    c.Group n = (some g, true) ∧
    (∀ c₀ : cache α, (c₀.DelGroup n).Group n = (none, false)) ∧
    (∀ c₀ : cache α, mapGet c₀.groups n = none →
      c₀.Group n = (none, false) ∧ c₀.DelGroup n = c₀) := by
  refine ⟨by simp [cache.Group, hg], ?_, ?_⟩
  · intro c₀
    simp [cache.Group, cache.DelGroup, mapGet_mapDel]
  · intro c₀ h
    refine ⟨by simp [cache.Group, h], ?_⟩
    show cache.mk c₀.gr (mapDel c₀.groups n) = c₀
    rw [mapDel_of_mapGet_none _ _ h]

/-- Witness for claim C10 on a cache holding one registered group "g1". -/
theorem c10_group_lookup_and_delgroup_witness :
    (⟨⟨0, [], none, 0⟩, [("g1", ⟨1, [], none, 5⟩)]⟩ : cache String).Group "g1" =
      (some ⟨1, [], none, 5⟩, true) ∧
    (∀ c₀ : cache String, (c₀.DelGroup "g1").Group "g1" = (none, false)) ∧
    (∀ c₀ : cache String, mapGet c₀.groups "g1" = none →
      c₀.Group "g1" = (none, false) ∧ c₀.DelGroup "g1" = c₀) :=
  c10_group_lookup_and_delgroup
    (⟨⟨0, [], none, 0⟩, [("g1", ⟨1, [], none, 5⟩)]⟩ : cache String) "g1"
    ⟨1, [], none, 5⟩ rfl

/-- Witness for the amended claim C2 at the concrete cache `NewCache 3 none`
after `NewGroup "g1" 7 none`. -/
theorem c2_registry_shares_default_group_mutex_witness :
    (NewCache 3 none : cache String).registryMutex =
      (NewCache 3 none : cache String).gr.valuesMutex ∧
    group.valuesMutex (⟨1, [], none, 7⟩ : group String) ≠
      cache.registryMutex
        (⟨⟨0, [], none, 3⟩, [("g1", ⟨1, [], none, 7⟩)]⟩ : cache String) :=
  c2_registry_shares_default_group_mutex (NewCache 3 none) "g1" 7 none _ _ rfl rfl

end Gache
